import Mathlib

/-!
# Verification of `BinClassifier` (src/src/finer/BinClassifier.h)

A shallow embedding of the Rubber Band library's per-frame spectral-bin
classifier.  Doubles are modelled as rationals; the two moving-median
collaborators (`MovingMedianStack`, `MovingMedian`) and the pointer queue
(`RingBuffer<double *>`) live outside the provided sources, so they are
modelled from the specification where noted.
-/

namespace RubberBand


/-- The four-way per-bin classification (`BinClassifier::Classification`). -/
inductive Classification where
  | Harmonic
  | Percussive
  | Residual
  | Silent
  deriving DecidableEq, Repr

/-- Constructor parameters (`BinClassifier::Parameters`). -/
structure Parameters where
  binCount : ℕ
  horizontalFilterLength : ℕ
  horizontalFilterLag : ℕ
  verticalFilterLength : ℕ
  harmonicThreshold : ℚ
  percussiveThreshold : ℚ
  silenceThreshold : ℚ
  deriving DecidableEq

/-- The constant `eps = 1.0e-7` from `BinClassifier::classify` (the exact
rational value of the literal, written with `mkRat` so that it evaluates). -/
def eps : ℚ := mkRat 1 10000000

/-- Insert a rational into an already-sorted list, keeping it sorted. -/
def insortQ (x : ℚ) : List ℚ → List ℚ
  | [] => [x]
  | y :: ys => if x ≤ y then x :: y :: ys else y :: insortQ x ys

/-- Sort a list of rationals ascending (insertion sort). -/
def sortQ (xs : List ℚ) : List ℚ := xs.foldr insortQ []

/-- Median of a finite multiset of rationals, taken as the element at
index `length / 2` of the sorted sequence (`0` for the empty list). -/
def medianQ (xs : List ℚ) : ℚ := (sortQ xs).getD (xs.length / 2) 0

/-- Modelled from the spec: the per-bin moving-median tracker
(`MovingMedianStack`, not under src/).  "one moving-median tracker per
bin, smoothing each bin's magnitude across successive frames"; each bin
holds "the last horizontalFilterLength magnitudes seen for that bin",
with a zeroed (neutral) window before enough samples have been seen.
`hist` lists the pushed values most-recent first; `get` returns the
median of the trailing window of length `w`. -/
def movingMedianGet (w : ℕ) (hist : List ℚ) : ℚ :=
  medianQ (hist.take w ++ List.replicate (w - hist.length) 0)

/-- Modelled from the spec: the cross-bin in-place moving-median filter
(`MovingMedian<double>::filter`, not under src/).  "given a bin-count-length
vector, produces, in place, the median-filtered vector along the bin axis,
using a sliding window of verticalFilterLength bins"; for window length 1
this is the identity on bins `0 ≤ i < n` ("verticalFilterLength=1
(degenerate - no cross-bin smoothing, vertical[i]=mag[i])"). -/
def verticalMedianFilter (len n : ℕ) (v : ℕ → ℚ) : ℕ → ℚ :=
  fun i =>
    let lo := i - len / 2
    medianQ (((List.range n).filter (fun j => lo ≤ j ∧ j < lo + len)).map v)

/-- The all-zeros buffer, as produced by `allocate_and_zero<double>(n)`. -/
def zeroBuf : ℕ → ℚ := fun _ => 0

/-- The mutable state of a `BinClassifier` instance: the per-bin horizontal
filter histories (`m_hFilters`), the two working buffers `m_hf` and `m_vf`,
and the delay queue `m_vfQueue` (front = oldest entry). -/
@[ext] structure BinClassifierState where
  params : Parameters
  hHist : ℕ → List ℚ
  hf : ℕ → ℚ
  vf : ℕ → ℚ
  vfQueue : List (ℕ → ℚ)

/-- The constructor `BinClassifier::BinClassifier`: zeroed working buffers,
fresh (empty-history) horizontal filters, and `horizontalFilterLag` zeroed
buffers pre-queued. -/
def mkBinClassifier (p : Parameters) : BinClassifierState :=
  { params := p
    hHist := fun _ => []
    hf := zeroBuf
    vf := zeroBuf
    vfQueue := List.replicate p.horizontalFilterLag zeroBuf }

/-- `BinClassifier::reset`: calls `m_hFilters->reset()` and nothing else. -/
def BinClassifierState.reset (s : BinClassifierState) : BinClassifierState :=
  { s with hHist := fun _ => [] }

/-- The per-bin decision stage of `BinClassifier::classify`
(lines 122-136). -/
def decideBin (p : Parameters) (m h v : ℚ) : Classification :=
  if m < p.silenceThreshold then Classification.Silent
  else if h / (v + eps) > p.harmonicThreshold then Classification.Harmonic
  else if v / (h + eps) > p.percussiveThreshold then Classification.Percussive
  else Classification.Residual

/-- `BinClassifier::classify`: push each bin's magnitude into its horizontal
filter and read the median back into `m_hf`; compute the vertical median of
the frame into `m_vf`; when `horizontalFilterLag > 0` rotate `m_vf` through
the delay queue (pop oldest, push fresh); then classify each bin.  Returns
the new state together with the `binCount` labels written. -/
def classify (s : BinClassifierState) (mag : ℕ → ℚ) :
    BinClassifierState × List Classification :=
  let p := s.params
  let n := p.binCount
  let hHistNew := fun i => if i < n then mag i :: s.hHist i else s.hHist i
  let hfNew := fun i =>
    if i < n then movingMedianGet p.horizontalFilterLength (hHistNew i)
    else s.hf i
  let vfFresh := verticalMedianFilter p.verticalFilterLength n mag
  let vfNew := if 0 < p.horizontalFilterLag then s.vfQueue.headD zeroBuf
               else vfFresh
  let queueNew := if 0 < p.horizontalFilterLag then s.vfQueue.tail ++ [vfFresh]
                  else s.vfQueue
  let labels := (List.range n).map (fun i => decideBin p (mag i) (hfNew i) (vfNew i))
  ({ s with hHist := hHistNew, hf := hfNew, vf := vfNew, vfQueue := queueNew },
   labels)

/-- `classify` viewed with an explicit output buffer: the first `binCount`
entries of `out` are overwritten with the fresh labels, the rest are kept. -/
def classifyInto (s : BinClassifierState) (mag : ℕ → ℚ)
    (out : List Classification) : BinClassifierState × List Classification :=
  let r := classify s mag
  (r.1, r.2 ++ out.drop s.params.binCount)

/-- Process a sequence of frames in order, keeping only the state. -/
def runC (s : BinClassifierState) (frames : List (ℕ → ℚ)) : BinClassifierState :=
  frames.foldl (fun t m => (classify t m).1) s

/-- The decision stage computed with the exact ratios `horizontal[i]/vertical[i]`
and `vertical[i]/horizontal[i]` (no `eps`), following the spec's words in the
claim about `eps`; defined only to be compared against `decideBin`. -/
def decideBinExact (p : Parameters) (m h v : ℚ) : Classification :=
  if m < p.silenceThreshold then Classification.Silent
  else if h / v > p.harmonicThreshold then Classification.Harmonic
  else if v / h > p.percussiveThreshold then Classification.Percussive
  else Classification.Residual

/-- The operations a client can interleave on one instance. -/
inductive BCOp where
  | classifyOp
  | resetOp
  deriving DecidableEq

/-- Buffer-identity model of the instance's pointer fields: `hfBuf` and
`vfBuf` are the identities of the buffers currently held in `m_hf` and
`m_vf`, and `queueBufs` the identities queued in `m_vfQueue` (front =
oldest).  Buffer contents are irrelevant here, only ownership. -/
structure OwnershipState where
  hfBuf : ℕ
  vfBuf : ℕ
  queueBufs : List ℕ
  deriving DecidableEq

/-- Identities of every buffer the constructor allocates: `m_hf`, `m_vf`,
and the `lag` queue entries. -/
def allocatedBufs (lag : ℕ) : List ℕ := List.range (lag + 2)

/-- Ownership right after construction: id 0 in `m_hf`, id 1 in `m_vf`,
ids 2 .. lag+1 queued. -/
def mkOwnership (lag : ℕ) : OwnershipState :=
  ⟨0, 1, List.range' 2 lag⟩

/-- Ownership transfer performed by one call: `classify` with positive lag
pops the oldest queue entry into the `m_vf` slot and pushes the buffer that
held the fresh vertical output; with zero lag, and on `reset`, no buffer
changes hands. -/
def stepOwn (lag : ℕ) (s : OwnershipState) : BCOp → OwnershipState
  | BCOp.classifyOp =>
      if 0 < lag then ⟨s.hfBuf, s.queueBufs.headD 0, s.queueBufs.tail ++ [s.vfBuf]⟩
      else s
  | BCOp.resetOp => s

/-- Ownership after an arbitrary interleaving of classify and reset calls. -/
def runOwn (lag : ℕ) (ops : List BCOp) : OwnershipState :=
  ops.foldl (stepOwn lag) (mkOwnership lag)

/-- The single-owner view: each buffer is in exactly one slot. -/
def ownedBufs (s : OwnershipState) : List ℕ := s.hfBuf :: s.vfBuf :: s.queueBufs

/-- The buffers the destructor deallocates, in order: every queue entry,
then `m_hf`, then `m_vf`. -/
def destructorFrees (s : OwnershipState) : List ℕ :=
  s.queueBufs ++ [s.hfBuf, s.vfBuf]

lemma getD_map_range {α : Type} (n i : ℕ) (f : ℕ → α) (d : α) (h : i < n) :
    ((List.range n).map f).getD i d = f i := by
  have h2 : i < ((List.range n).map f).length := by simpa using h
  rw [List.getD_eq_getElem _ _ h2, List.getElem_map, List.getElem_range]

lemma classify_label (s : BinClassifierState) (mag : ℕ → ℚ) (i : ℕ)
    (hi : i < s.params.binCount) :
    (classify s mag).2.getD i Classification.Silent
      = decideBin s.params (mag i) ((classify s mag).1.hf i) ((classify s mag).1.vf i) := by
  simp only [classify]
  rw [getD_map_range _ _ _ _ hi]

lemma classify_hf (s : BinClassifierState) (mag : ℕ → ℚ) (i : ℕ)
    (hi : i < s.params.binCount) :
    (classify s mag).1.hf i
      = movingMedianGet s.params.horizontalFilterLength (mag i :: s.hHist i) := by
  simp [classify, hi]

lemma classify_params (s : BinClassifierState) (mag : ℕ → ℚ) :
    (classify s mag).1.params = s.params := rfl

lemma runC_params (s : BinClassifierState) (fs : List (ℕ → ℚ)) :
    (runC s fs).params = s.params := by
  induction fs generalizing s with
  | nil => rfl
  | cons a fs ih => simpa [runC] using ih (classify s a).1

lemma runC_append (s : BinClassifierState) (fs : List (ℕ → ℚ)) (a : ℕ → ℚ) :
    runC s (fs ++ [a]) = (classify (runC s fs) a).1 := by
  simp [runC, List.foldl_append]

lemma classify_queue_pos (s : BinClassifierState) (mag : ℕ → ℚ)
    (h : 0 < s.params.horizontalFilterLag) :
    (classify s mag).1.vfQueue
      = s.vfQueue.tail
        ++ [verticalMedianFilter s.params.verticalFilterLength s.params.binCount mag] := by
  simp [classify, h]

lemma classify_queue_zero (s : BinClassifierState) (mag : ℕ → ℚ)
    (h : s.params.horizontalFilterLag = 0) :
    (classify s mag).1.vfQueue = s.vfQueue := by
  simp [classify, h]

lemma classify_vf_pos (s : BinClassifierState) (mag : ℕ → ℚ)
    (h : 0 < s.params.horizontalFilterLag) :
    (classify s mag).1.vf = s.vfQueue.headD zeroBuf := by
  simp [classify, h]

lemma classify_vf_zero (s : BinClassifierState) (mag : ℕ → ℚ)
    (h : s.params.horizontalFilterLag = 0) :
    (classify s mag).1.vf
      = verticalMedianFilter s.params.verticalFilterLength s.params.binCount mag := by
  simp [classify, h]

lemma headD_drop {α : Type} (l : List α) (n : ℕ) (d : α) :
    (l.drop n).headD d = l.getD n d := by
  induction l generalizing n with
  | nil => simp [List.getD]
  | cons x xs ih =>
    cases n with
    | zero => simp [List.getD]
    | succ m => simp [List.getD, ih m]

/-- Queue contents after running `fs` from a fresh instance: the original
zero pre-fill followed by the vertical-filter outputs of all frames, with
the first `fs.length` entries already consumed. -/
lemma mk_params (p : Parameters) : (mkBinClassifier p).params = p := rfl

/-- Queue contents after running `fs` from a fresh instance: the original
zero pre-fill followed by the vertical-filter outputs of all frames, with
the first `fs.length` entries already consumed. -/
lemma runC_queue (p : Parameters) (fs : List (ℕ → ℚ)) :
    (runC (mkBinClassifier p) fs).vfQueue
      = (List.replicate p.horizontalFilterLag zeroBuf
          ++ fs.map (verticalMedianFilter p.verticalFilterLength p.binCount)).drop
          fs.length := by
  induction fs using List.reverseRecOn with
  | nil => simp [runC, mkBinClassifier]
  | append_singleton fs a ih =>
    rw [runC_append]
    rcases Nat.eq_zero_or_pos p.horizontalFilterLag with h0 | hpos
    · rw [classify_queue_zero _ _ (by rw [runC_params, mk_params]; exact h0)]
      rw [ih, h0, List.replicate_zero, List.nil_append, List.nil_append]
      rw [List.drop_eq_nil_of_le (by rw [List.length_map])]
      rw [List.drop_eq_nil_of_le
        (by rw [List.length_map, List.length_append, List.length_singleton])]
    · rw [classify_queue_pos _ _ (by rw [runC_params, mk_params]; exact hpos)]
      rw [runC_params, mk_params, ih, List.tail_drop]
      simp only [List.length_append, List.length_singleton]
      rw [List.map_append, List.map_singleton, ← List.append_assoc]
      have hle : fs.length + 1
          ≤ (List.replicate p.horizontalFilterLag zeroBuf
              ++ fs.map (verticalMedianFilter p.verticalFilterLength p.binCount)).length := by
        rw [List.length_append, List.length_replicate, List.length_map]
        omega
      conv_rhs => rw [List.drop_append_of_le_length hle]

lemma eps_eq_div : eps = 1 / 10000000 := by
  rw [eps, Rat.mkRat_eq_divInt, Rat.divInt_eq_div]
  norm_num

lemma eps_pos : (0 : ℚ) < eps := by
  rw [eps_eq_div]
  norm_num

lemma stepOwn_invariant (lag : ℕ) (s : OwnershipState) (op : BCOp)
    (hq : s.queueBufs.length = lag) :
    (stepOwn lag s op).queueBufs.length = lag
    ∧ (ownedBufs (stepOwn lag s op)).Perm (ownedBufs s) := by
  cases op with
  | resetOp => exact ⟨hq, List.Perm.refl _⟩
  | classifyOp =>
    rcases Nat.eq_zero_or_pos lag with h0 | hpos
    · rw [stepOwn, if_neg (by omega)]
      exact ⟨hq, List.Perm.refl _⟩
    · rw [stepOwn, if_pos hpos]
      have hne : s.queueBufs ≠ [] := by
        intro hnil
        rw [hnil] at hq
        simp at hq
        omega
      obtain ⟨q, qs, hqs⟩ := List.exists_cons_of_ne_nil hne
      rw [hqs]
      constructor
      · rw [hqs] at hq
        simp at hq ⊢
        omega
      · simp only [ownedBufs, hqs, List.headD_cons, List.tail_cons]
        exact List.Perm.cons _
          (List.Perm.trans
            (List.Perm.cons _ (List.perm_append_singleton _ _))
            (List.Perm.swap _ _ _))

lemma foldOwn_invariant (lag : ℕ) (ops : List BCOp) (s : OwnershipState)
    (hq : s.queueBufs.length = lag) :
    ((ops.foldl (stepOwn lag) s).queueBufs.length = lag)
    ∧ (ownedBufs (ops.foldl (stepOwn lag) s)).Perm (ownedBufs s) := by
  induction ops generalizing s with
  | nil => exact ⟨hq, List.Perm.refl _⟩
  | cons op ops ih =>
    have h1 := stepOwn_invariant lag s op hq
    have h2 := ih (stepOwn lag s op) h1.1
    exact ⟨h2.1, h2.2.trans h1.2⟩

lemma runOwn_invariant (lag : ℕ) (ops : List BCOp) :
    (ownedBufs (runOwn lag ops)).Perm (allocatedBufs lag) := by
  have hmk : (ownedBufs (mkOwnership lag)).Perm (allocatedBufs lag) := by
    rw [ownedBufs, mkOwnership, allocatedBufs, List.range_eq_range']
    have h2 : List.range' 0 (lag + 2) = 0 :: 1 :: List.range' 2 lag := by
      rw [List.range'_succ, List.range'_succ]
    rw [h2]
  have hmkq : (mkOwnership lag).queueBufs.length = lag := by
    simp [mkOwnership]
  exact ((foldOwn_invariant lag ops (mkOwnership lag) hmkq).2).trans hmk

/-- C1: for every frame and every bin `i < binCount`, classify assigns
exactly one of the four labels by priority: Silent exactly when
`mag i < silenceThreshold` regardless of filter state; otherwise Harmonic
exactly when `horizontal/(vertical+eps)` exceeds the harmonic threshold;
otherwise Percussive exactly when `vertical/(horizontal+eps)` exceeds the
percussive threshold; otherwise Residual. -/
theorem classify_four_way_priority (s : BinClassifierState) (mag : ℕ → ℚ) (i : ℕ)
    (hi : i < s.params.binCount) :
    ((classify s mag).2.getD i Classification.Silent = Classification.Silent
        ↔ mag i < s.params.silenceThreshold)
    ∧ ((classify s mag).2.getD i Classification.Silent = Classification.Harmonic
        ↔ (¬ mag i < s.params.silenceThreshold
            ∧ (classify s mag).1.hf i / ((classify s mag).1.vf i + eps)
                > s.params.harmonicThreshold))
    ∧ ((classify s mag).2.getD i Classification.Silent = Classification.Percussive
        ↔ (¬ mag i < s.params.silenceThreshold
            ∧ ¬ (classify s mag).1.hf i / ((classify s mag).1.vf i + eps)
                > s.params.harmonicThreshold
            ∧ (classify s mag).1.vf i / ((classify s mag).1.hf i + eps)
                > s.params.percussiveThreshold))
    ∧ ((classify s mag).2.getD i Classification.Silent = Classification.Residual
        ↔ (¬ mag i < s.params.silenceThreshold
            ∧ ¬ (classify s mag).1.hf i / ((classify s mag).1.vf i + eps)
                > s.params.harmonicThreshold
            ∧ ¬ (classify s mag).1.vf i / ((classify s mag).1.hf i + eps)
                > s.params.percussiveThreshold)) := by
  rw [classify_label s mag i hi, decideBin]
  split_ifs with h1 h2 h3 <;> simp_all

/-- Witness for `classify_four_way_priority`. -/
theorem classify_four_way_priority_witness :
    (0 : ℕ) < (mkBinClassifier ⟨1, 1, 0, 1, 2, 2, 0⟩).params.binCount
    ∧ ((classify (mkBinClassifier ⟨1, 1, 0, 1, 2, 2, 0⟩) (fun _ => 1)).2.getD 0
          Classification.Silent = Classification.Silent
        ↔ (fun _ : ℕ => (1 : ℚ)) 0 < (mkBinClassifier ⟨1, 1, 0, 1, 2, 2, 0⟩).params.silenceThreshold) :=
  ⟨by decide,
   (classify_four_way_priority (mkBinClassifier ⟨1, 1, 0, 1, 2, 2, 0⟩)
      (fun _ => 1) 0 (by decide)).1⟩

/-- C2: with zero lag the decision stage sees the current frame's vertical
output; with lag `L > 0` and at least `L` frames already processed, the
vertical estimate used for the incoming frame is the vertical filter output
of the frame seen `L` calls earlier. -/
theorem vertical_lag_alignment (p : Parameters) :
    (p.horizontalFilterLag = 0 →
      ∀ (s : BinClassifierState) (mag : ℕ → ℚ), s.params = p →
        (classify s mag).1.vf
          = verticalMedianFilter p.verticalFilterLength p.binCount mag)
    ∧ (0 < p.horizontalFilterLag →
      ∀ (fs : List (ℕ → ℚ)) (a : ℕ → ℚ), p.horizontalFilterLag ≤ fs.length →
        (classify (runC (mkBinClassifier p) fs) a).1.vf
          = verticalMedianFilter p.verticalFilterLength p.binCount
              (fs.getD (fs.length - p.horizontalFilterLag) zeroBuf)) := by
  constructor
  · intro h0 s mag hp
    rw [classify_vf_zero _ _ (by rw [hp]; exact h0), hp]
  · intro hL fs a hfs
    rw [classify_vf_pos _ _ (by rw [runC_params, mk_params]; exact hL),
      runC_queue, headD_drop]
    have h1 : (List.replicate p.horizontalFilterLag zeroBuf).length ≤ fs.length := by
      rw [List.length_replicate]; exact hfs
    rw [List.getD_append_right _ _ _ _ h1, List.length_replicate]
    have h2 : fs.length - p.horizontalFilterLag
        < (fs.map (verticalMedianFilter p.verticalFilterLength p.binCount)).length := by
      rw [List.length_map]; omega
    rw [List.getD_eq_getElem _ _ h2, List.getElem_map,
      ← List.getD_eq_getElem fs zeroBuf (by omega)]

/-- Witness for `vertical_lag_alignment`. -/
theorem vertical_lag_alignment_witness :
    0 < (⟨1, 1, 1, 1, 2, 2, 0⟩ : Parameters).horizontalFilterLag
    ∧ (⟨1, 1, 1, 1, 2, 2, 0⟩ : Parameters).horizontalFilterLag
        ≤ ([fun _ : ℕ => (1:ℚ)]).length
    ∧ (classify (runC (mkBinClassifier ⟨1, 1, 1, 1, 2, 2, 0⟩) [fun _ => 1])
          (fun _ => 2)).1.vf
        = verticalMedianFilter 1 1
            (([fun _ : ℕ => (1:ℚ)]).getD (([fun _ : ℕ => (1:ℚ)]).length - 1) zeroBuf) :=
  ⟨by decide, by decide,
   (vertical_lag_alignment ⟨1, 1, 1, 1, 2, 2, 0⟩).2 (by decide)
     [fun _ => 1] (fun _ => 2) (by decide)⟩

/-- C3: with positive lag, the delay queue holds exactly `lag` entries after
construction and after any sequence of classify calls; each call consumes
exactly the oldest entry and appends the fresh vertical output; reset leaves
the queue untouched. -/
theorem queue_holds_lag_entries (p : Parameters) (hL : 0 < p.horizontalFilterLag) :
    (mkBinClassifier p).vfQueue.length = p.horizontalFilterLag
    ∧ (∀ fs : List (ℕ → ℚ),
        (runC (mkBinClassifier p) fs).vfQueue.length = p.horizontalFilterLag)
    ∧ (∀ (fs : List (ℕ → ℚ)) (mag : ℕ → ℚ),
        (classify (runC (mkBinClassifier p) fs) mag).1.vfQueue
          = (runC (mkBinClassifier p) fs).vfQueue.tail
            ++ [verticalMedianFilter p.verticalFilterLength p.binCount mag])
    ∧ (∀ s : BinClassifierState, s.reset.vfQueue = s.vfQueue) := by
  refine ⟨by simp [mkBinClassifier], ?_, ?_, fun s => rfl⟩
  · intro fs
    rw [runC_queue, List.length_drop, List.length_append, List.length_replicate,
      List.length_map]
    omega
  · intro fs mag
    rw [classify_queue_pos _ _ (by rw [runC_params, mk_params]; exact hL),
      runC_params, mk_params]

/-- Witness for `queue_holds_lag_entries`. -/
theorem queue_holds_lag_entries_witness :
    0 < (⟨1, 1, 1, 1, 2, 2, 0⟩ : Parameters).horizontalFilterLag
    ∧ (mkBinClassifier ⟨1, 1, 1, 1, 2, 2, 0⟩).vfQueue.length
        = (⟨1, 1, 1, 1, 2, 2, 0⟩ : Parameters).horizontalFilterLag :=
  ⟨by decide, (queue_holds_lag_entries ⟨1, 1, 1, 1, 2, 2, 0⟩ (by decide)).1⟩

/-- C4: `reset` clears only the horizontal filter bank's per-bin histories
(as if no samples had been seen); the horizontal and vertical working
buffers, the delay queue, and the parameters are all unchanged (the vertical
filter keeps no cross-frame state, per the spec). -/
theorem reset_clears_only_horizontal (s : BinClassifierState) :
    s.reset.hHist = (fun _ => [])
    ∧ s.reset.hf = s.hf
    ∧ s.reset.vf = s.vf
    ∧ s.reset.vfQueue = s.vfQueue
    ∧ s.reset.params = s.params :=
  ⟨rfl, rfl, rfl, rfl, rfl⟩

/-- Counterexample to C5 as stated: with thresholds 2 and estimates
`h = 2.0000001`, `v = 1` (both at least 1, hence far from zero), the label
with `eps` in the denominator is Residual while the exact-ratio label is
Harmonic. -/
theorem eps_changes_label_counterexample :
    decideBin ⟨1, 1, 0, 1, 2, 2, 0⟩ 1 (20000001/10000000) 1 = Classification.Residual
    ∧ decideBinExact ⟨1, 1, 0, 1, 2, 2, 0⟩ 1 (20000001/10000000) 1
        = Classification.Harmonic
    ∧ (1:ℚ) ≤ 20000001/10000000 ∧ (1:ℚ) ≤ 1 := by
  refine ⟨?_, ?_, by norm_num, le_refl 1⟩
  · norm_num [decideBin, eps_eq_div]
  · norm_num [decideBinExact]

/-- C5 amended: adding `eps` to the denominators does not change the label
for any bin whose estimates are both positive, provided neither exact
comparison falls in the `eps`-wide band just above its threshold. -/
theorem eps_no_change_outside_band (p : Parameters) (m h v : ℚ)
    (hTh : 0 ≤ p.harmonicThreshold) (hTp : 0 ≤ p.percussiveThreshold)
    (hv : 0 < v) (hh : 0 < h)
    (hbandH : ¬ (p.harmonicThreshold * v < h
        ∧ h ≤ p.harmonicThreshold * (v + eps)))
    (hbandP : ¬ (p.percussiveThreshold * h < v
        ∧ v ≤ p.percussiveThreshold * (h + eps))) :
    decideBin p m h v = decideBinExact p m h v := by
  have hve : 0 < v + eps := add_pos hv eps_pos
  have hhe : 0 < h + eps := add_pos hh eps_pos
  have h1 : (h / (v + eps) > p.harmonicThreshold) ↔ (h / v > p.harmonicThreshold) := by
    rw [gt_iff_lt, gt_iff_lt, lt_div_iff₀ hve, lt_div_iff₀ hv]
    constructor
    · intro hx
      have hmono : p.harmonicThreshold * v ≤ p.harmonicThreshold * (v + eps) :=
        mul_le_mul_of_nonneg_left (by linarith [eps_pos]) hTh
      linarith
    · intro hx
      by_contra hy
      exact hbandH ⟨hx, le_of_not_lt hy⟩
  have h2 : (v / (h + eps) > p.percussiveThreshold) ↔ (v / h > p.percussiveThreshold) := by
    rw [gt_iff_lt, gt_iff_lt, lt_div_iff₀ hhe, lt_div_iff₀ hh]
    constructor
    · intro hx
      have hmono : p.percussiveThreshold * h ≤ p.percussiveThreshold * (h + eps) :=
        mul_le_mul_of_nonneg_left (by linarith [eps_pos]) hTp
      linarith
    · intro hx
      by_contra hy
      exact hbandP ⟨hx, le_of_not_lt hy⟩
  simp only [decideBin, decideBinExact, h1, h2]

/-- Witness for `eps_no_change_outside_band`. -/
theorem eps_no_change_outside_band_witness :
    (0:ℚ) ≤ (⟨1, 1, 0, 1, 2, 2, 0⟩ : Parameters).harmonicThreshold
    ∧ (0:ℚ) ≤ (⟨1, 1, 0, 1, 2, 2, 0⟩ : Parameters).percussiveThreshold
    ∧ (0:ℚ) < 1 ∧ (0:ℚ) < 5
    ∧ ¬ ((⟨1, 1, 0, 1, 2, 2, 0⟩ : Parameters).harmonicThreshold * 1 < 5
        ∧ (5:ℚ) ≤ (⟨1, 1, 0, 1, 2, 2, 0⟩ : Parameters).harmonicThreshold * (1 + eps))
    ∧ ¬ ((⟨1, 1, 0, 1, 2, 2, 0⟩ : Parameters).percussiveThreshold * 5 < 1
        ∧ (1:ℚ) ≤ (⟨1, 1, 0, 1, 2, 2, 0⟩ : Parameters).percussiveThreshold * (5 + eps))
    ∧ decideBin ⟨1, 1, 0, 1, 2, 2, 0⟩ 1 5 1 = decideBinExact ⟨1, 1, 0, 1, 2, 2, 0⟩ 1 5 1 :=
  ⟨by decide, by decide, by decide, by decide,
   by norm_num [eps_eq_div],
   by norm_num [eps_eq_div],
   eps_no_change_outside_band ⟨1, 1, 0, 1, 2, 2, 0⟩ 1 5 1
     (by decide) (by decide) (by decide) (by decide)
     (by norm_num [eps_eq_div]) (by norm_num [eps_eq_div])⟩

/-- C6: with binCount=4, horizontalFilterLength=3, lag=0,
verticalFilterLength=1, thresholds (2, 2, 0.01), classifying the frame
`[0.5, 0.02, 0.5, 0.001]` three times yields, on the third call,
`[Residual, Residual, Residual, Silent]`. -/
theorem concrete_scenario_three_frames :
    (classify
      (runC (mkBinClassifier ⟨4, 3, 0, 1, 2, 2, 1/100⟩)
        [fun i => [(1:ℚ)/2, 1/50, 1/2, 1/1000].getD i 0,
         fun i => [(1:ℚ)/2, 1/50, 1/2, 1/1000].getD i 0])
      (fun i => [(1:ℚ)/2, 1/50, 1/2, 1/1000].getD i 0)).2
    = [Classification.Residual, Classification.Residual,
       Classification.Residual, Classification.Silent] := by
  norm_num [runC, classify, mkBinClassifier, movingMedianGet, verticalMedianFilter,
    medianQ, sortQ, insortQ, decideBin, eps, zeroBuf, List.range_succ]

/-- C7: classify writes exactly `binCount` labels, leaves extra output
capacity untouched, and reads only the first `binCount` magnitudes. -/
theorem classify_exact_extent (s : BinClassifierState) (mag mag2 : ℕ → ℚ)
    (out : List Classification)
    (hmag : ∀ i, i < s.params.binCount → mag i = mag2 i) :
    (classify s mag).2.length = s.params.binCount
    ∧ (classifyInto s mag out).2.take s.params.binCount = (classify s mag).2
    ∧ (classifyInto s mag out).2.drop s.params.binCount = out.drop s.params.binCount
    ∧ classify s mag = classify s mag2 := by
  have hlen : (classify s mag).2.length = s.params.binCount := by
    simp [classify]
  refine ⟨hlen, ?_, ?_, ?_⟩
  · show ((classify s mag).2 ++ out.drop s.params.binCount).take s.params.binCount
      = (classify s mag).2
    rw [← hlen, List.take_left]
  · show ((classify s mag).2 ++ out.drop s.params.binCount).drop s.params.binCount
      = out.drop s.params.binCount
    rw [← hlen, List.drop_left]
  · have hV : verticalMedianFilter s.params.verticalFilterLength s.params.binCount mag
        = verticalMedianFilter s.params.verticalFilterLength s.params.binCount mag2 := by
      funext i
      simp only [verticalMedianFilter]
      congr 1
      refine List.map_congr_left ?_
      intro j hj
      have : j < s.params.binCount := by
        have := List.mem_filter.mp hj
        exact List.mem_range.mp this.1
      exact hmag j this
    refine Prod.ext ?_ ?_
    · refine BinClassifierState.ext ?_ ?_ ?_ ?_ ?_ <;> simp only [classify]
      · funext i
        by_cases h : i < s.params.binCount <;> simp [h]
        exact hmag i h
      · funext i
        by_cases h : i < s.params.binCount <;> simp [h]
        rw [hmag i h]
      · rw [hV]
      · rw [hV]
    · simp only [classify]
      refine List.map_congr_left ?_
      intro i hi
      have h : i < s.params.binCount := List.mem_range.mp hi
      simp [h, hmag i h, hV]

/-- Witness for C7 (hypothesis `hmag` discharged at identical inputs). -/
theorem classify_exact_extent_witness :
    (∀ i, i < (mkBinClassifier ⟨1, 1, 0, 1, 2, 2, 0⟩).params.binCount →
        (fun _ : ℕ => (1:ℚ)) i = (fun _ : ℕ => (1:ℚ)) i)
    ∧ ((classify (mkBinClassifier ⟨1, 1, 0, 1, 2, 2, 0⟩) (fun _ => 1)).2.length
        = (mkBinClassifier ⟨1, 1, 0, 1, 2, 2, 0⟩).params.binCount
      ∧ (classifyInto (mkBinClassifier ⟨1, 1, 0, 1, 2, 2, 0⟩) (fun _ => 1) []).2.take
          (mkBinClassifier ⟨1, 1, 0, 1, 2, 2, 0⟩).params.binCount
        = (classify (mkBinClassifier ⟨1, 1, 0, 1, 2, 2, 0⟩) (fun _ => 1)).2
      ∧ (classifyInto (mkBinClassifier ⟨1, 1, 0, 1, 2, 2, 0⟩) (fun _ => 1) []).2.drop
          (mkBinClassifier ⟨1, 1, 0, 1, 2, 2, 0⟩).params.binCount
        = ([] : List Classification).drop (mkBinClassifier ⟨1, 1, 0, 1, 2, 2, 0⟩).params.binCount
      ∧ classify (mkBinClassifier ⟨1, 1, 0, 1, 2, 2, 0⟩) (fun _ => 1)
        = classify (mkBinClassifier ⟨1, 1, 0, 1, 2, 2, 0⟩) (fun _ => 1)) :=
  ⟨fun _ _ => rfl,
   classify_exact_extent (mkBinClassifier ⟨1, 1, 0, 1, 2, 2, 0⟩)
     (fun _ => 1) (fun _ => 1) [] (fun _ _ => rfl)⟩

/-- C8: the decision stage is deterministic and memoryless — for bins at or
above the silence threshold, two classify evaluations on any two states that
agree on the thresholds, the bin magnitude, and the horizontal and vertical
estimates for that bin produce the same label. -/
theorem decision_stage_pure (s₁ s₂ : BinClassifierState) (mag₁ mag₂ : ℕ → ℚ)
    (i₁ i₂ : ℕ) (h₁ : i₁ < s₁.params.binCount) (h₂ : i₂ < s₂.params.binCount)
    (hTh : s₁.params.harmonicThreshold = s₂.params.harmonicThreshold)
    (hTp : s₁.params.percussiveThreshold = s₂.params.percussiveThreshold)
    (hSil : s₁.params.silenceThreshold = s₂.params.silenceThreshold)
    (hm : mag₁ i₁ = mag₂ i₂)
    (hsil : ¬ mag₁ i₁ < s₁.params.silenceThreshold)
    (hh : (classify s₁ mag₁).1.hf i₁ = (classify s₂ mag₂).1.hf i₂)
    (hv : (classify s₁ mag₁).1.vf i₁ = (classify s₂ mag₂).1.vf i₂) :
    (classify s₁ mag₁).2.getD i₁ Classification.Silent
      = (classify s₂ mag₂).2.getD i₂ Classification.Silent := by
  rw [classify_label s₁ mag₁ i₁ h₁, classify_label s₂ mag₂ i₂ h₂]
  rw [decideBin, decideBin, hTh, hTp, hSil, hm, hh, hv]

/-- Witness for C8. -/
theorem decision_stage_pure_witness :
    ((0:ℕ) < (mkBinClassifier ⟨1, 1, 0, 1, 2, 2, 0⟩).params.binCount)
    ∧ (classify (mkBinClassifier ⟨1, 1, 0, 1, 2, 2, 0⟩) (fun _ => 1)).2.getD 0
          Classification.Silent
        = (classify (mkBinClassifier ⟨1, 1, 0, 1, 2, 2, 0⟩) (fun _ => 1)).2.getD 0
          Classification.Silent :=
  ⟨by decide,
   decision_stage_pure (mkBinClassifier ⟨1, 1, 0, 1, 2, 2, 0⟩)
     (mkBinClassifier ⟨1, 1, 0, 1, 2, 2, 0⟩) (fun _ => 1) (fun _ => 1) 0 0
     (by decide) (by decide) rfl rfl rfl rfl (by decide) rfl rfl⟩

/-- C9: across any interleaving of classify and reset calls, the buffers
allocated at construction are, at every point, owned by exactly one of the
delay queue, the horizontal slot, or the vertical slot (no buffer is ever
duplicated or lost), and the destructor deallocates each of them exactly
once. -/
theorem buffers_balanced (lag : ℕ) (ops : List BCOp) :
    (ownedBufs (runOwn lag ops)).Perm (allocatedBufs lag)
    ∧ (ownedBufs (runOwn lag ops)).Nodup
    ∧ (destructorFrees (runOwn lag ops)).Perm (allocatedBufs lag)
    ∧ (destructorFrees (runOwn lag ops)).Nodup := by
  have hperm := runOwn_invariant lag ops
  have hnodup : (ownedBufs (runOwn lag ops)).Nodup :=
    hperm.nodup_iff.mpr (List.nodup_range _)
  have hdf : (destructorFrees (runOwn lag ops)).Perm (ownedBufs (runOwn lag ops)) := by
    rw [destructorFrees, ownedBufs]
    exact List.perm_append_comm
  exact ⟨hperm, hnodup, hdf.trans hperm,
    (hdf.trans hperm).nodup_iff.mpr (List.nodup_range _)⟩

/-- C10: during the first `lag` calls after construction the delay-aligned
vertical estimate is the zero buffer, so any bin at or above the silence
threshold whose horizontal readout exceeds `harmonicThreshold * eps` is
classified Harmonic. -/
theorem warmup_zero_vertical (p : Parameters) (fs : List (ℕ → ℚ)) (a : ℕ → ℚ)
    (i : ℕ) (hL : 0 < p.horizontalFilterLag)
    (ht : fs.length < p.horizontalFilterLag) (hi : i < p.binCount)
    (hm : ¬ a i < p.silenceThreshold)
    (hh : p.harmonicThreshold * eps
        < (classify (runC (mkBinClassifier p) fs) a).1.hf i) :
    (classify (runC (mkBinClassifier p) fs) a).1.vf = zeroBuf
    ∧ (classify (runC (mkBinClassifier p) fs) a).2.getD i Classification.Silent
        = Classification.Harmonic := by
  have hvf : (classify (runC (mkBinClassifier p) fs) a).1.vf = zeroBuf := by
    rw [classify_vf_pos _ _ (by rw [runC_params, mk_params]; exact hL),
      runC_queue, headD_drop]
    have h1 : fs.length < (List.replicate p.horizontalFilterLag zeroBuf).length := by
      rw [List.length_replicate]; exact ht
    rw [List.getD_append _ _ _ _ h1, List.getD_eq_getElem _ _ h1,
      List.getElem_replicate]
  refine ⟨hvf, ?_⟩
  rw [classify_label _ _ _ (by rw [runC_params, mk_params]; exact hi)]
  rw [runC_params, mk_params, hvf, decideBin]
  rw [if_neg hm, if_pos]
  show p.harmonicThreshold < _ / (zeroBuf i + eps)
  rw [zeroBuf, zero_add]
  rw [lt_div_iff₀ eps_pos]
  exact hh

/-- Witness for `warmup_zero_vertical`. -/
theorem warmup_zero_vertical_witness :
    0 < (⟨1, 1, 1, 1, 2, 2, 0⟩ : Parameters).horizontalFilterLag
    ∧ ([] : List (ℕ → ℚ)).length < (⟨1, 1, 1, 1, 2, 2, 0⟩ : Parameters).horizontalFilterLag
    ∧ 0 < (⟨1, 1, 1, 1, 2, 2, 0⟩ : Parameters).binCount
    ∧ ¬ (fun _ : ℕ => (1:ℚ)) 0 < (⟨1, 1, 1, 1, 2, 2, 0⟩ : Parameters).silenceThreshold
    ∧ (⟨1, 1, 1, 1, 2, 2, 0⟩ : Parameters).harmonicThreshold * eps
        < (classify (runC (mkBinClassifier ⟨1, 1, 1, 1, 2, 2, 0⟩) []) (fun _ => 1)).1.hf 0
    ∧ (classify (runC (mkBinClassifier ⟨1, 1, 1, 1, 2, 2, 0⟩) []) (fun _ => 1)).2.getD 0
        Classification.Silent = Classification.Harmonic :=
  ⟨by decide, by decide, by decide, by decide,
   by norm_num [classify, runC, mkBinClassifier, movingMedianGet, medianQ,
     sortQ, insortQ, eps_eq_div],
   (warmup_zero_vertical ⟨1, 1, 1, 1, 2, 2, 0⟩ [] (fun _ => 1) 0
     (by decide) (by decide) (by decide) (by decide)
     (by norm_num [classify, runC, mkBinClassifier, movingMedianGet, medianQ,
       sortQ, insortQ, eps_eq_div])).2⟩

end RubberBand
